import Mathlib

/-!
Shallow embedding of the data-ingestion microservice of the
Distributed GPS Route Tracking System (Rust), covering the route
simplification algorithms (`route_simplification.rs`), the trip document
construction (`types.rs`) and the message-processing pipeline (`main.rs`).
`f64` values are modelled as real numbers, so the arithmetic is exact.
-/

namespace GpsTracking

open scoped Classical

/-- Rust `Location` from `types.rs`: a GPS coordinate with latitude and longitude. -/
@[ext]
structure Location where
  latitude : ℝ
  longitude : ℝ

instance : Inhabited Location := ⟨⟨0, 0⟩⟩

/-- Rust `ServiceError` from `types.rs` (the constructors the embedded code can raise). -/
inductive ServiceError where
  | validation (msg : String)
  | routeProcessing (msg : String)

/-- Rust `RouteSimplifier` from `route_simplification.rs`: holds the configured tolerance. -/
structure RouteSimplifier where
  tolerance : ℝ

/-- Rust `RouteSimplifier::new`: rejects tolerance ≤ 0 with a validation error. -/
noncomputable def RouteSimplifier.new (tolerance : ℝ) : Except ServiceError RouteSimplifier :=
  if tolerance ≤ 0 then
    .error (.validation "Tolerance must be greater than 0")
  else
    .ok ⟨tolerance⟩

/-- Rust `RouteSimplifier::set_tolerance`: re-validates positivity; on error the
stored tolerance is unchanged (the returned simplifier is the second component). -/
noncomputable def RouteSimplifier.set_tolerance (s : RouteSimplifier) (tolerance : ℝ) :
    Except ServiceError Unit × RouteSimplifier :=
  if tolerance ≤ 0 then
    (.error (.validation "Tolerance must be greater than 0"), s)
  else
    (.ok (), ⟨tolerance⟩)

/-- Rust `RouteSimplifier::distance`: Euclidean distance between two points. -/
noncomputable def distance (p1 p2 : Location) : ℝ :=
  let dx := p1.longitude - p2.longitude
  let dy := p1.latitude - p2.latitude
  Real.sqrt (dx * dx + dy * dy)

/-- Rust `RouteSimplifier::perpendicular_distance`: distance from a point to the line
through `line_start` and `line_end`, with a fallback when the base is degenerate. -/
noncomputable def perpendicular_distance (point line_start line_end : Location) : ℝ :=
  let area := |line_start.longitude * (line_end.latitude - point.latitude)
    + line_end.longitude * (point.latitude - line_start.latitude)
    + point.longitude * (line_start.latitude - line_end.latitude)|
  let base := distance line_start line_end
  if base = 0 then distance point line_start else area / base

theorem distance_nonneg (p1 p2 : Location) : 0 ≤ distance p1 p2 :=
  Real.sqrt_nonneg _

theorem distance_eq_zero_iff (p1 p2 : Location) : distance p1 p2 = 0 ↔ p1 = p2 := by
  unfold distance
  rw [Real.sqrt_eq_zero']
  constructor
  · intro h
    have h1 : (p1.longitude - p2.longitude) * (p1.longitude - p2.longitude)
        + (p1.latitude - p2.latitude) * (p1.latitude - p2.latitude) = 0 := by
      have := add_nonneg (mul_self_nonneg (p1.longitude - p2.longitude))
        (mul_self_nonneg (p1.latitude - p2.latitude))
      linarith
    have h2 := (add_eq_zero_iff_of_nonneg (mul_self_nonneg _) (mul_self_nonneg _)).mp h1
    have hx : p1.longitude = p2.longitude := by
      have := mul_self_eq_zero.mp h2.1; linarith
    have hy : p1.latitude = p2.latitude := by
      have := mul_self_eq_zero.mp h2.2; linarith
    exact Location.ext hy hx
  · intro h
    subst h
    simp

theorem perpendicular_distance_nonneg (p a b : Location) :
    0 ≤ perpendicular_distance p a b := by
  unfold perpendicular_distance
  by_cases h : distance a b = 0
  · simp only [h, if_pos]
    exact distance_nonneg _ _
  · simp only [h, if_neg, if_false]
    exact div_nonneg (abs_nonneg _) (distance_nonneg _ _)

/-- The inner `for j in (i + 1)..locations.len()` loop of
`RouteSimplifier::simplify_route_custom`: scans forward from `j`, breaking as
soon as a point's perpendicular distance exceeds the tolerance, and otherwise
recording the index of the point with the largest distance seen so far. -/
noncomputable def scanAhead (tol : ℝ) (locations : List Location) (anchor lastp : Location)
    (j stop farthest : Nat) (maxDist : ℝ) : Nat :=
  if stop ≤ j then farthest
  else
    if tol < perpendicular_distance (locations.getD j default) anchor lastp then farthest
    else
      if maxDist < perpendicular_distance (locations.getD j default) anchor lastp then
        scanAhead tol locations anchor lastp (j + 1) stop j
          (perpendicular_distance (locations.getD j default) anchor lastp)
      else
        scanAhead tol locations anchor lastp (j + 1) stop farthest maxDist
termination_by stop - j
decreasing_by all_goals omega

/-- The value of the local `farthest_index` variable chosen for anchor `i` in
`RouteSimplifier::simplify_route_custom`: initialized to `i + 1` and `max_distance`
initialized to `0.0`, scanning from `i + 1` with the line running from the anchor
`locations[i]` to the final point `locations[locations.len() - 1]`. -/
noncomputable def farthestIdx (tol : ℝ) (locations : List Location) (i : Nat) : Nat :=
  scanAhead tol locations (locations.getD i default)
    (locations.getD (locations.length - 1) default) (i + 1) locations.length (i + 1) 0

theorem scanAhead_ge_aux (tol : ℝ) (locations : List Location) (anchor lastp : Location) :
    ∀ (n j stop farthest : Nat) (maxDist : ℝ), stop - j ≤ n → farthest ≤ j →
      farthest ≤ scanAhead tol locations anchor lastp j stop farthest maxDist := by
  intro n
  induction n with
  | zero =>
    intro j stop farthest maxDist hn hf
    rw [scanAhead]
    have hstop : stop ≤ j := by omega
    rw [if_pos hstop]
  | succ n ih =>
    intro j stop farthest maxDist hn hf
    rw [scanAhead]
    by_cases h1 : stop ≤ j
    · rw [if_pos h1]
    · rw [if_neg h1]
      by_cases h2 : tol < perpendicular_distance (locations.getD j default) anchor lastp
      · rw [if_pos h2]
      · rw [if_neg h2]
        by_cases h3 : maxDist < perpendicular_distance (locations.getD j default) anchor lastp
        · rw [if_pos h3]
          exact le_trans hf (ih (j + 1) stop j _ (by omega) (by omega))
        · rw [if_neg h3]
          exact ih (j + 1) stop farthest maxDist (by omega) (by omega)

theorem scanAhead_lt_aux (tol : ℝ) (locations : List Location) (anchor lastp : Location) :
    ∀ (n j stop farthest : Nat) (maxDist : ℝ), stop - j ≤ n → farthest < stop →
      scanAhead tol locations anchor lastp j stop farthest maxDist < stop := by
  intro n
  induction n with
  | zero =>
    intro j stop farthest maxDist hn hf
    rw [scanAhead]
    have hstop : stop ≤ j := by omega
    rw [if_pos hstop]
    exact hf
  | succ n ih =>
    intro j stop farthest maxDist hn hf
    rw [scanAhead]
    by_cases h1 : stop ≤ j
    · rw [if_pos h1]; exact hf
    · rw [if_neg h1]
      by_cases h2 : tol < perpendicular_distance (locations.getD j default) anchor lastp
      · rw [if_pos h2]; exact hf
      · rw [if_neg h2]
        by_cases h3 : maxDist < perpendicular_distance (locations.getD j default) anchor lastp
        · rw [if_pos h3]
          exact ih (j + 1) stop j _ (by omega) (by omega)
        · rw [if_neg h3]
          exact ih (j + 1) stop farthest maxDist (by omega) hf

/-- The chosen `farthest_index` is at least `i + 1`: it starts there and the
scan only ever replaces it by larger scan positions. -/
theorem farthestIdx_ge (tol : ℝ) (locations : List Location) (i : Nat) :
    i + 1 ≤ farthestIdx tol locations i :=
  scanAhead_ge_aux tol locations _ _ (locations.length - i) (i + 1) locations.length
    (i + 1) 0 (by omega) le_rfl

/-- The chosen `farthest_index` stays below `locations.len()`. -/
theorem farthestIdx_lt (tol : ℝ) (locations : List Location) (i : Nat)
    (h : i + 1 < locations.length) : farthestIdx tol locations i < locations.length :=
  scanAhead_lt_aux tol locations _ _ (locations.length - i) (i + 1) locations.length
    (i + 1) 0 (by omega) h

/-- The outer `while i < locations.len() - 1` loop of
`RouteSimplifier::simplify_route_custom`: pushes the chosen farthest point and
moves the anchor there. -/
noncomputable def customLoop (tol : ℝ) (locations : List Location) (i : Nat)
    (simplified : List Location) : List Location :=
  if locations.length - 1 ≤ i then simplified
  else
    customLoop tol locations (farthestIdx tol locations i)
      (simplified ++ [locations.getD (farthestIdx tol locations i) default])
termination_by locations.length - i
decreasing_by
  have hge : i + 1 ≤ farthestIdx tol locations i := farthestIdx_ge tol locations i
  omega

theorem customLoop_eq_append_aux (tol : ℝ) (locations : List Location) :
    ∀ (n i : Nat) (acc : List Location), locations.length - i ≤ n →
      ∃ rest, customLoop tol locations i acc = acc ++ rest ∧
        List.Sublist rest (locations.drop (i + 1)) := by
  intro n
  induction n with
  | zero =>
    intro i acc hn
    rw [customLoop]
    have h : locations.length - 1 ≤ i := by omega
    rw [if_pos h]
    exact ⟨[], by simp, List.nil_sublist _⟩
  | succ n ih =>
    intro i acc hn
    rw [customLoop]
    by_cases h : locations.length - 1 ≤ i
    · rw [if_pos h]
      exact ⟨[], by simp, List.nil_sublist _⟩
    · rw [if_neg h]
      have hge := farthestIdx_ge tol locations i
      have hlt := farthestIdx_lt tol locations i (by omega)
      obtain ⟨rest, heq, hsub⟩ := ih (farthestIdx tol locations i)
        (acc ++ [locations.getD (farthestIdx tol locations i) default]) (by omega)
      refine ⟨locations.getD (farthestIdx tol locations i) default :: rest, ?_, ?_⟩
      · rw [heq]; simp
      · have h2 : locations.drop (farthestIdx tol locations i)
            = locations.getD (farthestIdx tol locations i) default
              :: locations.drop (farthestIdx tol locations i + 1) := by
          rw [List.drop_eq_getElem_cons hlt, List.getD_eq_getElem locations default hlt]
        have h3 : List.Sublist
            (locations.getD (farthestIdx tol locations i) default :: rest)
            (locations.drop (farthestIdx tol locations i)) := by
          rw [h2]; exact List.Sublist.cons₂ _ hsub
        have h4 : List.Sublist (locations.drop (farthestIdx tol locations i))
            (locations.drop (i + 1)) := by
          have h5 : locations.drop (farthestIdx tol locations i)
              = (locations.drop (i + 1)).drop (farthestIdx tol locations i - (i + 1)) := by
            rw [List.drop_drop]
            congr 1
            omega
          rw [h5]
          exact List.drop_sublist _ _
        exact h3.trans h4

theorem customLoop_getLast_aux (tol : ℝ) (locations : List Location) :
    ∀ (n i : Nat) (acc : List Location), locations.length - i ≤ n →
      i < locations.length - 1 →
      (customLoop tol locations i acc).getLast?
        = some (locations.getD (locations.length - 1) default) := by
  intro n
  induction n with
  | zero => intro i acc hn hi; omega
  | succ n ih =>
    intro i acc hn hi
    rw [customLoop, if_neg (by omega : ¬ locations.length - 1 ≤ i)]
    have hge := farthestIdx_ge tol locations i
    have hlt := farthestIdx_lt tol locations i (by omega)
    by_cases hf : farthestIdx tol locations i < locations.length - 1
    · exact ih _ _ (by omega) hf
    · have hfe : farthestIdx tol locations i = locations.length - 1 := by omega
      rw [customLoop, if_pos (by omega : locations.length - 1 ≤ farthestIdx tol locations i)]
      rw [hfe, List.getLast?_concat]

/-- Rust `RouteSimplifier::simplify_route_custom`: the greedy forward-scan variant.
Empty input yields empty output; inputs of length ≤ 2 are returned unchanged;
otherwise the loop starts from `locations[0]` and the final point is appended
afterwards if the last kept point differs from it. -/
noncomputable def simplify_route_custom (tol : ℝ) (locations : List Location) :
    Except ServiceError (List Location) :=
  if locations.isEmpty then .ok []
  else if locations.length ≤ 2 then .ok locations
  else
    if (customLoop tol locations 0 [locations.getD 0 default]).getLast? = locations.getLast? then
      .ok (customLoop tol locations 0 [locations.getD 0 default])
    else
      .ok (customLoop tol locations 0 [locations.getD 0 default]
        ++ [locations.getD (locations.length - 1) default])

/-- Modelled from the spec: the interior-point search of the classical recursive
Ramer-Douglas-Peucker reduction performed by the external geometry library in
`RouteSimplifier::simplify_route` (the library's code is not part of this
repository). Over the interior indices `lo + 1 .. hi - 1` of the segment
`lo .. hi`, it returns the index attaining the maximum perpendicular distance
to the straight line joining the two endpoints, together with that distance
(the first interior index seeds the scan; later indices replace it only on a
strictly larger distance). -/
noncomputable def argmaxPD (locations : List Location) (lo hi : Nat) : Nat × ℝ :=
  ((List.range (hi - lo - 2)).map (fun k => lo + 2 + k)).foldl
    (fun acc j =>
      if acc.2 < perpendicular_distance (locations.getD j default)
          (locations.getD lo default) (locations.getD hi default) then
        (j, perpendicular_distance (locations.getD j default)
          (locations.getD lo default) (locations.getD hi default))
      else acc)
    (lo + 1, perpendicular_distance (locations.getD (lo + 1) default)
      (locations.getD lo default) (locations.getD hi default))

theorem argmaxPD_bounds (locations : List Location) (lo hi : Nat) (h : lo + 2 ≤ hi) :
    lo + 1 ≤ (argmaxPD locations lo hi).1 ∧ (argmaxPD locations lo hi).1 < hi := by
  unfold argmaxPD
  have key : ∀ (l : List Nat) (acc : Nat × ℝ), (∀ j ∈ l, lo + 1 ≤ j ∧ j < hi) →
      lo + 1 ≤ acc.1 ∧ acc.1 < hi →
      lo + 1 ≤ (l.foldl (fun acc j =>
        if acc.2 < perpendicular_distance (locations.getD j default)
            (locations.getD lo default) (locations.getD hi default) then
          (j, perpendicular_distance (locations.getD j default)
            (locations.getD lo default) (locations.getD hi default))
        else acc) acc).1 ∧
      (l.foldl (fun acc j =>
        if acc.2 < perpendicular_distance (locations.getD j default)
            (locations.getD lo default) (locations.getD hi default) then
          (j, perpendicular_distance (locations.getD j default)
            (locations.getD lo default) (locations.getD hi default))
        else acc) acc).1 < hi := by
    intro l
    induction l with
    | nil => intro acc _ hacc; exact hacc
    | cons j rest ih =>
      intro acc hmem hacc
      rw [List.foldl_cons]
      apply ih
      · intro x hx
        exact hmem x (List.mem_cons_of_mem j hx)
      · by_cases hc : acc.2 < perpendicular_distance (locations.getD j default)
            (locations.getD lo default) (locations.getD hi default)
        · rw [if_pos hc]
          exact hmem j (List.mem_cons_self j rest)
        · rw [if_neg hc]
          exact hacc
  apply key
  · intro j hj
    simp only [List.mem_map, List.mem_range] at hj
    obtain ⟨k, hk, rfl⟩ := hj
    omega
  · exact ⟨le_rfl, by omega⟩

/-- Modelled from the spec: the recursive Ramer-Douglas-Peucker reduction that the
external geometry library applies in `RouteSimplifier::simplify_route`, expressed
on indices of the input sequence. For the segment `lo .. hi`: if there is no
interior point, keep the two endpoints; otherwise find the interior point with
maximum perpendicular distance; if that distance is within the tolerance, collapse
the segment to its two endpoints; otherwise keep the split point and recurse on the
two sub-segments, concatenating the results and de-duplicating the shared split
point. -/
noncomputable def rdpIdx (tol : ℝ) (locations : List Location) (lo hi : Nat) : List Nat :=
  if hi ≤ lo + 1 then [lo, hi]
  else
    if (argmaxPD locations lo hi).2 ≤ tol then [lo, hi]
    else
      rdpIdx tol locations lo (argmaxPD locations lo hi).1
        ++ (rdpIdx tol locations (argmaxPD locations lo hi).1 hi).tail
termination_by hi - lo
decreasing_by
  · have := argmaxPD_bounds locations lo hi (by omega)
    omega
  · have := argmaxPD_bounds locations lo hi (by omega)
    omega

/-- Rust `RouteSimplifier::simplify_route`: the library-style variant. The guards for
empty and length ≤ 2 input are from the source; the reduction itself is the
external geometry library's RDP, modelled from the spec as `rdpIdx` over the
indices of the input and mapped back to the points. -/
noncomputable def simplify_route (tol : ℝ) (locations : List Location) :
    Except ServiceError (List Location) :=
  if locations.isEmpty then .ok []
  else if locations.length ≤ 2 then .ok locations
  else .ok ((rdpIdx tol locations 0 (locations.length - 1)).map
    (fun i => locations.getD i default))

theorem getLast?_tail_of_two_le {α : Type} (l : List α) (h : 2 ≤ l.length) :
    l.tail.getLast? = l.getLast? := by
  cases l with
  | nil => simp at h
  | cons a t =>
    cases t with
    | nil => simp at h
    | cons b r =>
      show (b :: r).getLast? = (a :: b :: r).getLast?
      rw [List.getLast?_cons_cons]

theorem rdpIdx_head_aux (tol : ℝ) (locations : List Location) :
    ∀ (n lo hi : Nat), hi - lo ≤ n → (rdpIdx tol locations lo hi).head? = some lo := by
  intro n
  induction n with
  | zero =>
    intro lo hi hn
    rw [rdpIdx, if_pos (by omega : hi ≤ lo + 1)]
    rfl
  | succ n ih =>
    intro lo hi hn
    rw [rdpIdx]
    by_cases h1 : hi ≤ lo + 1
    · rw [if_pos h1]; rfl
    · rw [if_neg h1]
      by_cases h2 : (argmaxPD locations lo hi).2 ≤ tol
      · rw [if_pos h2]; rfl
      · rw [if_neg h2]
        have hb := argmaxPD_bounds locations lo hi (by omega)
        have hleft := ih lo (argmaxPD locations lo hi).1 (by omega)
        have hne : rdpIdx tol locations lo (argmaxPD locations lo hi).1 ≠ [] := by
          intro he
          rw [he] at hleft
          simp at hleft
        rw [List.head?_append_of_ne_nil _ hne]
        exact hleft

theorem rdpIdx_two_le_aux (tol : ℝ) (locations : List Location) :
    ∀ (n lo hi : Nat), hi - lo ≤ n → 2 ≤ (rdpIdx tol locations lo hi).length := by
  intro n
  induction n with
  | zero =>
    intro lo hi hn
    rw [rdpIdx, if_pos (by omega : hi ≤ lo + 1)]
    simp
  | succ n ih =>
    intro lo hi hn
    rw [rdpIdx]
    by_cases h1 : hi ≤ lo + 1
    · rw [if_pos h1]; simp
    · rw [if_neg h1]
      by_cases h2 : (argmaxPD locations lo hi).2 ≤ tol
      · rw [if_pos h2]; simp
      · rw [if_neg h2]
        have hb := argmaxPD_bounds locations lo hi (by omega)
        have hleft := ih lo (argmaxPD locations lo hi).1 (by omega)
        rw [List.length_append]
        omega

theorem rdpIdx_getLast_aux (tol : ℝ) (locations : List Location) :
    ∀ (n lo hi : Nat), hi - lo ≤ n → (rdpIdx tol locations lo hi).getLast? = some hi := by
  intro n
  induction n with
  | zero =>
    intro lo hi hn
    rw [rdpIdx, if_pos (by omega : hi ≤ lo + 1)]
    rfl
  | succ n ih =>
    intro lo hi hn
    rw [rdpIdx]
    by_cases h1 : hi ≤ lo + 1
    · rw [if_pos h1]; rfl
    · rw [if_neg h1]
      by_cases h2 : (argmaxPD locations lo hi).2 ≤ tol
      · rw [if_pos h2]; rfl
      · rw [if_neg h2]
        have hb := argmaxPD_bounds locations lo hi (by omega)
        have hrt := rdpIdx_two_le_aux tol locations n (argmaxPD locations lo hi).1 hi (by omega)
        have htail : (rdpIdx tol locations (argmaxPD locations lo hi).1 hi).tail ≠ [] := by
          intro he
          have := congrArg List.length he
          rw [List.length_tail] at this
          simp at this
          omega
        rw [List.getLast?_append_of_ne_nil _ htail,
          getLast?_tail_of_two_le _ hrt]
        exact ih (argmaxPD locations lo hi).1 hi (by omega)

theorem rdpIdx_length_aux (tol : ℝ) (locations : List Location) :
    ∀ (n lo hi : Nat), hi - lo ≤ n → lo < hi →
      (rdpIdx tol locations lo hi).length ≤ hi - lo + 1 := by
  intro n
  induction n with
  | zero =>
    intro lo hi hn hlt
    rw [rdpIdx, if_pos (by omega : hi ≤ lo + 1)]
    simp
    omega
  | succ n ih =>
    intro lo hi hn hlt
    rw [rdpIdx]
    by_cases h1 : hi ≤ lo + 1
    · rw [if_pos h1]; simp; omega
    · rw [if_neg h1]
      by_cases h2 : (argmaxPD locations lo hi).2 ≤ tol
      · rw [if_pos h2]; simp; omega
      · rw [if_neg h2]
        have hb := argmaxPD_bounds locations lo hi (by omega)
        have hleft := ih lo (argmaxPD locations lo hi).1 (by omega) (by omega)
        have hright := ih (argmaxPD locations lo hi).1 hi (by omega) (by omega)
        rw [List.length_append, List.length_tail]
        omega

/-- Rust `calculate_total_distance` from `route_simplification.rs`: sum of Euclidean
distances over adjacent pairs (`windows(2)`); 0 for fewer than two points. -/
noncomputable def calculate_total_distance (locations : List Location) : ℝ :=
  if locations.length < 2 then 0
  else ((locations.zip locations.tail).map (fun w =>
    Real.sqrt ((w.2.longitude - w.1.longitude) * (w.2.longitude - w.1.longitude)
      + (w.2.latitude - w.1.latitude) * (w.2.latitude - w.1.latitude)))).sum

/-- Rust `RouteStats` from `route_simplification.rs`. -/
structure RouteStats where
  original_points : Nat
  simplified_points : Nat
  compression_ratio : ℝ
  original_length : ℝ
  simplified_length : ℝ
  length_difference : ℝ

/-- Rust `calculate_route_stats` from `route_simplification.rs`. -/
noncomputable def calculate_route_stats (original simplified : List Location) : RouteStats :=
  { original_points := original.length
    simplified_points := simplified.length
    compression_ratio :=
      if original.isEmpty then 0
      else (simplified.length : ℝ) / (original.length : ℝ)
    original_length := calculate_total_distance original
    simplified_length := calculate_total_distance simplified
    length_difference :=
      |calculate_total_distance original - calculate_total_distance simplified| }

/-- Rust `TripDocument` from `types.rs`. -/
structure TripDocument where
  driver_id : String
  current_route_id : String
  simplified_route : List Location
  timestamp : Int
  original_points_count : Nat
  simplified_points_count : Nat
  compression_ratio : ℝ

/-- Rust `TripDocument::new` from `types.rs`: the compression ratio is
simplified count / original count, and 0 when the original count is 0. -/
noncomputable def TripDocument.new (driver_id current_route_id : String)
    (simplified_route : List Location) (timestamp : Int) (original_count : Nat) :
    TripDocument :=
  { driver_id := driver_id
    current_route_id := current_route_id
    simplified_route := simplified_route
    timestamp := timestamp
    original_points_count := original_count
    simplified_points_count := simplified_route.length
    compression_ratio :=
      if 0 < original_count then (simplified_route.length : ℝ) / (original_count : ℝ)
      else 0 }

/-- Rust `BusStatus` from `types.rs`. -/
inductive BusStatus where
  | inRoute
  | finished

/-- Rust `BusMessage` from `types.rs` (timestamp is a `u64`, modelled as `Nat`). -/
structure BusMessage where
  driver_id : String
  driver_location : Location
  timestamp : Nat
  current_route_id : String
  status : BusStatus

/-- Error kinds surfaced while processing one message in `main.rs`
(decode/parse errors, fast-store errors, durable-store errors, and
`ServiceError`s from the simplifier). -/
inductive ProcError where
  | serde
  | redis
  | mongo
  | service (e : ServiceError)

/-- The bson document `process_message` inserts into the trips collection. -/
structure TripDoc where
  driverId : String
  currentRouteId : String
  simplifiedRoute : List Location
  timestamp : Int
  originalPointsCount : Int
  simplifiedPointsCount : Int

/-- Rust `u64 as i64`: two's-complement reinterpretation. -/
def u64_as_i64 (n : Nat) : Int :=
  if n % 2 ^ 64 < 2 ^ 63 then ((n % 2 ^ 64 : Nat) : Int)
  else ((n % 2 ^ 64 : Nat) : Int) - 2 ^ 64

/-- Rust `usize as i32`: two's-complement reinterpretation. -/
def usize_as_i32 (n : Nat) : Int :=
  if n % 2 ^ 32 < 2 ^ 31 then ((n % 2 ^ 32 : Nat) : Int)
  else ((n % 2 ^ 32 : Nat) : Int) - 2 ^ 32

/-- The Redis key derived in `process_message`:
`format!("{}:{}", msg.driver_id, msg.current_route_id)`. -/
def deriveKey (msg : BusMessage) : String :=
  msg.driver_id ++ ":" ++ msg.current_route_id

/-- The trip document built in the FINISHED branch of `process_message`. -/
def mkTripDoc (msg : BusMessage) (locations simplified : List Location) : TripDoc :=
  { driverId := msg.driver_id
    currentRouteId := msg.current_route_id
    simplifiedRoute := simplified
    timestamp := u64_as_i64 msg.timestamp
    originalPointsCount := usize_as_i32 locations.length
    simplifiedPointsCount := usize_as_i32 simplified.length }

/-- External-collaborator operations issued by `process_message`, in issue order. -/
inductive Action where
  | rpush (key : String) (value : String)
  | lrange (key : String)
  | insertOne (doc : TripDoc)
  | del (key : String)

/-- Outcomes of the external collaborators for a single invocation of
`process_message`: the payload decode, the location serializer, the Redis
`rpush`/`lrange`/`del` calls, the per-string location parse, and the MongoDB
insert. Each fallible step is an `Except`, mirroring the `?` operators. -/
structure Env where
  decode : Except ProcError BusMessage
  serializeLoc : Location → Except ProcError String
  rpushOutcome : Except ProcError Unit
  lrangeResult : Except ProcError (List String)
  parseLoc : String → Except ProcError Location
  insertOutcome : Except ProcError Unit
  delOutcome : Except ProcError Unit

/-- The `for p in points_json { serde_json::from_str(&p)? }` loop of
`process_message`: parses every stored string, aborting on the first failure. -/
def parse_points (parse : String → Except ProcError Location) :
    List String → Except ProcError (List Location)
  | [] => .ok []
  | s :: rest =>
    match parse s with
    | .error e => .error e
    | .ok loc =>
      match parse_points parse rest with
      | .error e => .error e
      | .ok locs => .ok (loc :: locs)

/-- The IN_ROUTE arm of `process_message`: serialize the location and `rpush`
it under the derived key. -/
def handle_in_route (env : Env) (msg : BusMessage) :
    Except ProcError Unit × List Action :=
  match env.serializeLoc msg.driver_location with
  | .error e => (.error e, [])
  | .ok locJson =>
    match env.rpushOutcome with
    | .error e => (.error e, [.rpush (deriveKey msg) locJson])
    | .ok _ => (.ok (), [.rpush (deriveKey msg) locJson])

/-- The FINISHED arm of `process_message`: `lrange` the derived key; if the
stored list is empty, return success; otherwise parse the points, simplify,
insert the trip document, and only then `del` the key. Any failing step aborts
with that error. -/
noncomputable def handle_finished (env : Env) (tol : ℝ) (msg : BusMessage) :
    Except ProcError Unit × List Action :=
  match env.lrangeResult with
  | .error e => (.error e, [.lrange (deriveKey msg)])
  | .ok points_json =>
    if points_json.isEmpty then (.ok (), [.lrange (deriveKey msg)])
    else
      match parse_points env.parseLoc points_json with
      | .error e => (.error e, [.lrange (deriveKey msg)])
      | .ok locations =>
        match simplify_route tol locations with
        | .error e => (.error (.service e), [.lrange (deriveKey msg)])
        | .ok simplified =>
          match env.insertOutcome with
          | .error e => (.error e, [.lrange (deriveKey msg),
              .insertOne (mkTripDoc msg locations simplified)])
          | .ok _ =>
            match env.delOutcome with
            | .error e => (.error e, [.lrange (deriveKey msg),
                .insertOne (mkTripDoc msg locations simplified), .del (deriveKey msg)])
            | .ok _ => (.ok (), [.lrange (deriveKey msg),
                .insertOne (mkTripDoc msg locations simplified), .del (deriveKey msg)])

/-- Rust `process_message` from `main.rs`, with the external effects it issues
recorded in order: decode the payload, then dispatch on the message status. -/
noncomputable def process_message (env : Env) (tol : ℝ) :
    Except ProcError Unit × List Action :=
  match env.decode with
  | .error e => (.error e, [])
  | .ok msg =>
    match msg.status with
    | .inRoute => handle_in_route env msg
    | .finished => handle_finished env tol msg

theorem process_message_eq_finished (env : Env) (tol : ℝ) (msg : BusMessage)
    (hdec : env.decode = .ok msg) (hst : msg.status = .finished) :
    process_message env tol = handle_finished env tol msg := by
  unfold process_message
  rw [hdec]
  show (match msg.status with
    | BusStatus.inRoute => handle_in_route env msg
    | BusStatus.finished => handle_finished env tol msg) = handle_finished env tol msg
  rw [hst]

theorem getLast?_eq_getD (l : List Location) (h : l ≠ []) :
    l.getLast? = some (l.getD (l.length - 1) default) := by
  have hlt : l.length - 1 < l.length := by
    cases l with
    | nil => exact absurd rfl h
    | cons a t => simp
  rw [List.getLast?_eq_getElem?, List.getElem?_eq_getElem hlt,
    List.getD_eq_getElem l default hlt]

theorem head?_eq_getD (l : List Location) (h : l ≠ []) :
    l.head? = some (l.getD 0 default) := by
  have hlt : 0 < l.length := List.length_pos.mpr h
  rw [List.head?_eq_getElem?, List.getElem?_eq_getElem hlt,
    List.getD_eq_getElem l default hlt]

/-- For inputs with more than two points, the trailing duplicate-endpoint guard of
`simplify_route_custom` never fires: the loop's last kept point is already the
input's final point. -/
theorem simplify_route_custom_eq (tol : ℝ) (locations : List Location)
    (h : 2 < locations.length) :
    simplify_route_custom tol locations
      = .ok (customLoop tol locations 0 [locations.getD 0 default]) := by
  have hne : locations ≠ [] := by
    intro he
    rw [he] at h
    simp at h
  have h0 : locations.isEmpty = false := by
    cases locations with
    | nil => exact absurd rfl hne
    | cons a t => rfl
  have hlast : (customLoop tol locations 0 [locations.getD 0 default]).getLast?
      = locations.getLast? := by
    rw [customLoop_getLast_aux tol locations locations.length 0 _ (by omega) (by omega),
      getLast?_eq_getD locations hne]
  unfold simplify_route_custom
  rw [h0]
  simp only [Bool.false_eq_true, if_false]
  rw [if_neg (by omega : ¬ locations.length ≤ 2), if_pos hlast]

theorem simplify_route_ok (tol : ℝ) (locations : List Location) :
    ∃ out, simplify_route tol locations = .ok out := by
  unfold simplify_route
  split_ifs <;> exact ⟨_, rfl⟩

/-- C1: for every non-empty finite sequence of location points and every positive
tolerance, both `simplify_route` and `simplify_route_custom` return a non-empty
sequence whose first element equals the input's first element and whose last
element equals the input's last element. -/
theorem claim_C1 (tol : ℝ) (locations : List Location) (htol : 0 < tol)
    (hne : locations ≠ []) :
    (∃ out, simplify_route tol locations = .ok out ∧ out ≠ [] ∧
      out.head? = locations.head? ∧ out.getLast? = locations.getLast?) ∧
    (∃ out, simplify_route_custom tol locations = .ok out ∧ out ≠ [] ∧
      out.head? = locations.head? ∧ out.getLast? = locations.getLast?) := by
  have h0 : locations.isEmpty = false := List.isEmpty_eq_false.mpr hne
  have hpos : 0 < locations.length := List.length_pos.mpr hne
  constructor
  · by_cases h2 : locations.length ≤ 2
    · refine ⟨locations, ?_, hne, rfl, rfl⟩
      unfold simplify_route
      rw [h0]
      simp only [Bool.false_eq_true, if_false]
      rw [if_pos h2]
    · refine ⟨(rdpIdx tol locations 0 (locations.length - 1)).map
        (fun i => locations.getD i default), ?_, ?_, ?_, ?_⟩
      · unfold simplify_route
        rw [h0]
        simp only [Bool.false_eq_true, if_false]
        rw [if_neg h2]
      · intro he
        have hl := congrArg List.length he
        rw [List.length_map] at hl
        have h2l := rdpIdx_two_le_aux tol locations (locations.length - 1) 0
          (locations.length - 1) (by omega)
        rw [List.length_nil] at hl
        omega
      · rw [List.head?_map, rdpIdx_head_aux tol locations (locations.length - 1) 0
          (locations.length - 1) (by omega), head?_eq_getD locations hne]
        rfl
      · rw [List.getLast?_map, rdpIdx_getLast_aux tol locations (locations.length - 1) 0
          (locations.length - 1) (by omega), getLast?_eq_getD locations hne]
        rfl
  · by_cases h2 : locations.length ≤ 2
    · refine ⟨locations, ?_, hne, rfl, rfl⟩
      unfold simplify_route_custom
      rw [h0]
      simp only [Bool.false_eq_true, if_false]
      rw [if_pos h2]
    · obtain ⟨rest, heq, hsub⟩ := customLoop_eq_append_aux tol locations locations.length 0
        [locations.getD 0 default] (by omega)
    
      refine ⟨customLoop tol locations 0 [locations.getD 0 default],
        simplify_route_custom_eq tol locations (by omega), ?_, ?_, ?_⟩
      · rw [heq]
        simp
      · rw [heq, List.head?_append_of_ne_nil _ (by simp), head?_eq_getD locations hne]
        rfl
      · rw [customLoop_getLast_aux tol locations locations.length 0 _ (by omega) (by omega),
          getLast?_eq_getD locations hne]

/-- Witness for C1 at tolerance 1 and a one-point route. -/
theorem claim_C1_witness :
    ∃ out, simplify_route 1 [Location.mk 1 1] = .ok out ∧ out ≠ [] ∧
      out.head? = [Location.mk 1 1].head? ∧ out.getLast? = [Location.mk 1 1].getLast? :=
  (claim_C1 1 [Location.mk 1 1] zero_lt_one (List.cons_ne_nil _ _)).1

/-- C2: inputs of length 0, 1 or 2 are returned unchanged by both variants. -/
theorem claim_C2 (tol : ℝ) (locations : List Location) (htol : 0 < tol)
    (hlen : locations.length ≤ 2) :
    simplify_route tol locations = .ok locations ∧
    simplify_route_custom tol locations = .ok locations := by
  cases locations with
  | nil => exact ⟨rfl, rfl⟩
  | cons a t =>
    have h0 : (a :: t).isEmpty = false := rfl
    constructor
    · unfold simplify_route
      rw [h0]
      simp only [Bool.false_eq_true, if_false]
      rw [if_pos hlen]
    · unfold simplify_route_custom
      rw [h0]
      simp only [Bool.false_eq_true, if_false]
      rw [if_pos hlen]

/-- Witness for C2 at tolerance 1 and a two-point route. -/
theorem claim_C2_witness :
    simplify_route 1 [Location.mk 0 0, Location.mk 1 1] = .ok [Location.mk 0 0, Location.mk 1 1] ∧
    simplify_route_custom 1 [Location.mk 0 0, Location.mk 1 1]
      = .ok [Location.mk 0 0, Location.mk 1 1] :=
  claim_C2 1 [Location.mk 0 0, Location.mk 1 1] zero_lt_one (by simp)

/-- C3: the output of `simplify_route_custom` is an exact element-wise
subsequence of the input: there is a strictly increasing (order-embedding)
assignment of input indices under which every output point equals the
corresponding input point, in input order. -/
theorem claim_C3 (tol : ℝ) (locations : List Location) (htol : 0 < tol) :
    ∃ out, simplify_route_custom tol locations = .ok out ∧
      ∃ f : Fin out.length ↪o Fin locations.length,
        ∀ ix : Fin out.length, out.get ix = locations.get (f ix) := by
  by_cases h2 : locations.length ≤ 2
  · cases locations with
    | nil =>
      exact ⟨[], rfl, List.sublist_iff_exists_fin_orderEmbedding_get_eq.mp (List.nil_sublist _)⟩
    | cons a t =>
      refine ⟨a :: t, ?_, List.sublist_iff_exists_fin_orderEmbedding_get_eq.mp (List.Sublist.refl _)⟩
      have h0 : (a :: t).isEmpty = false := rfl
      unfold simplify_route_custom
      rw [h0]
      simp only [Bool.false_eq_true, if_false]
      rw [if_pos h2]
  · obtain ⟨rest, heq, hsub⟩ := customLoop_eq_append_aux tol locations locations.length 0
      [locations.getD 0 default] (by omega)
    refine ⟨customLoop tol locations 0 [locations.getD 0 default],
      simplify_route_custom_eq tol locations (by omega), ?_⟩
    apply List.sublist_iff_exists_fin_orderEmbedding_get_eq.mp
    rw [heq]
    have hpos : 0 < locations.length := by omega
    have hcons : locations = locations.getD 0 default :: locations.drop 1 := by
      have hd := List.drop_eq_getElem_cons hpos
      rw [List.drop_zero] at hd
      rw [List.getD_eq_getElem locations default hpos]
      exact hd
    have hsub' : List.Sublist rest (locations.drop 1) := by simpa using hsub
    have hs : List.Sublist ([locations.getD 0 default] ++ rest)
        (locations.getD 0 default :: locations.drop 1) := List.Sublist.cons₂ _ hsub'
    rw [← hcons] at hs
    exact hs

/-- Witness for C3 at tolerance 1 and a three-point route. -/
theorem claim_C3_witness :
    ∃ out, simplify_route_custom 1 [Location.mk 0 0, Location.mk 1 1, Location.mk 2 2] = .ok out ∧
      ∃ f : Fin out.length ↪o Fin 3,
        ∀ ix, out.get ix = [Location.mk 0 0, Location.mk 1 1, Location.mk 2 2].get (f ix) :=
  claim_C3 1 [Location.mk 0 0, Location.mk 1 1, Location.mk 2 2] zero_lt_one

/-- C8: for every input and positive tolerance, neither variant produces more
points than its input. -/
theorem claim_C8 (tol : ℝ) (locations : List Location) (htol : 0 < tol) :
    (∃ out, simplify_route tol locations = .ok out ∧ out.length ≤ locations.length) ∧
    (∃ out, simplify_route_custom tol locations = .ok out ∧
      out.length ≤ locations.length) := by
  by_cases hne : locations = []
  · subst hne
    exact ⟨⟨[], rfl, le_rfl⟩, ⟨[], rfl, le_rfl⟩⟩
  · have h0 : locations.isEmpty = false := List.isEmpty_eq_false.mpr hne
    have hpos : 0 < locations.length := List.length_pos.mpr hne
    constructor
    · by_cases h2 : locations.length ≤ 2
      · refine ⟨locations, ?_, le_rfl⟩
        unfold simplify_route
        rw [h0]
        simp only [Bool.false_eq_true, if_false]
        rw [if_pos h2]
      · refine ⟨(rdpIdx tol locations 0 (locations.length - 1)).map
          (fun i => locations.getD i default), ?_, ?_⟩
        · unfold simplify_route
          rw [h0]
          simp only [Bool.false_eq_true, if_false]
          rw [if_neg h2]
        · rw [List.length_map]
          have := rdpIdx_length_aux tol locations (locations.length - 1) 0
            (locations.length - 1) (by omega) (by omega)
          omega
    · by_cases h2 : locations.length ≤ 2
      · refine ⟨locations, ?_, le_rfl⟩
        unfold simplify_route_custom
        rw [h0]
        simp only [Bool.false_eq_true, if_false]
        rw [if_pos h2]
      · obtain ⟨rest, heq, hsub⟩ := customLoop_eq_append_aux tol locations locations.length 0
          [locations.getD 0 default] (by omega)
        refine ⟨customLoop tol locations 0 [locations.getD 0 default],
          simplify_route_custom_eq tol locations (by omega), ?_⟩
        rw [heq, List.length_append]
        have hr := hsub.length_le
        rw [List.length_drop] at hr
        simp only [List.length_cons, List.length_nil]
        omega

/-- Witness for C8 at tolerance 1 and a three-point route. -/
theorem claim_C8_witness :
    ∃ out, simplify_route 1 [Location.mk 0 0, Location.mk 1 1, Location.mk 2 2] = .ok out ∧
      out.length ≤ 3 :=
  (claim_C8 1 [Location.mk 0 0, Location.mk 1 1, Location.mk 2 2] zero_lt_one).1

/-- C6: `RouteSimplifier::new` and `RouteSimplifier::set_tolerance` fail with a
`ValidationError` exactly when the tolerance is ≤ 0; for positive tolerance they
succeed and the stored tolerance becomes the given value, while a failing
`set_tolerance` leaves the stored tolerance unchanged. -/
theorem claim_C6 (s : RouteSimplifier) (t : ℝ) :
    ((∃ msg, RouteSimplifier.new t = .error (.validation msg)) ↔ t ≤ 0) ∧
    (0 < t → RouteSimplifier.new t = .ok ⟨t⟩) ∧
    ((∃ msg, (RouteSimplifier.set_tolerance s t).1 = .error (.validation msg)) ↔ t ≤ 0) ∧
    (t ≤ 0 → (RouteSimplifier.set_tolerance s t).2 = s) ∧
    (0 < t → RouteSimplifier.set_tolerance s t = (.ok (), ⟨t⟩)) ∧
    (0 < t → RouteSimplifier.tolerance (RouteSimplifier.set_tolerance s t).2 = t) := by
  by_cases h : t ≤ 0
  · unfold RouteSimplifier.new RouteSimplifier.set_tolerance
    rw [if_pos h, if_pos h]
    refine ⟨?_, ?_, ?_, ?_, ?_, ?_⟩
    · exact ⟨fun _ => h, fun _ => ⟨_, rfl⟩⟩
    · exact fun hp => absurd h (not_le.mpr hp)
    · exact ⟨fun _ => h, fun _ => ⟨_, rfl⟩⟩
    · exact fun _ => rfl
    · exact fun hp => absurd h (not_le.mpr hp)
    · exact fun hp => absurd h (not_le.mpr hp)
  · unfold RouteSimplifier.new RouteSimplifier.set_tolerance
    rw [if_neg h, if_neg h]
    refine ⟨?_, ?_, ?_, ?_, ?_, ?_⟩
    · refine ⟨?_, fun hle => absurd hle h⟩
      rintro ⟨msg, hmsg⟩
      cases hmsg
    · exact fun _ => rfl
    · refine ⟨?_, fun hle => absurd hle h⟩
      rintro ⟨msg, hmsg⟩
      cases hmsg
    · exact fun hle => absurd hle h
    · exact fun _ => rfl
    · exact fun _ => rfl

/-- Witness for C6 at a stored tolerance of 2 and a new tolerance of 1. -/
theorem claim_C6_witness :
    RouteSimplifier.new 1 = .ok ⟨1⟩ ∧
    RouteSimplifier.set_tolerance ⟨2⟩ 1 = (.ok (), ⟨1⟩) :=
  ⟨(claim_C6 ⟨2⟩ 1).2.1 zero_lt_one, (claim_C6 ⟨2⟩ 1).2.2.2.2.1 zero_lt_one⟩

/-- C7: `perpendicular_distance` never divides by zero: the base
`distance line_start line_end` vanishes exactly when the two line points
coincide, in which case the Euclidean distance from the point to `line_start`
is returned; otherwise the absolute cross-product area divided by the
(non-zero) base is returned. -/
theorem claim_C7 (p a b : Location) :
    (distance a b = 0 ↔ a = b) ∧
    (a = b → perpendicular_distance p a b = distance p a) ∧
    (a ≠ b → perpendicular_distance p a b
        = |a.longitude * (b.latitude - p.latitude) + b.longitude * (p.latitude - a.latitude)
            + p.longitude * (a.latitude - b.latitude)| / distance a b
      ∧ distance a b ≠ 0) := by
  refine ⟨distance_eq_zero_iff a b, ?_, ?_⟩
  · intro hab
    have hz : distance a b = 0 := (distance_eq_zero_iff a b).mpr hab
    unfold perpendicular_distance
    rw [if_pos hz]
  · intro hab
    have hz : distance a b ≠ 0 := fun h => hab ((distance_eq_zero_iff a b).mp h)
    constructor
    · unfold perpendicular_distance
      rw [if_neg hz]
    · exact hz

/-- Witness for C7 on a degenerate and a non-degenerate base. -/
theorem claim_C7_witness :
    distance (Location.mk 0 0) (Location.mk 0 1) ≠ 0 ∧
    perpendicular_distance (Location.mk 1 1) (Location.mk 0 0) (Location.mk 0 0)
      = distance (Location.mk 1 1) (Location.mk 0 0) :=
  ⟨((claim_C7 (Location.mk 1 1) (Location.mk 0 0) (Location.mk 0 1)).2.2
      (by simp [Location.mk.injEq])).2,
    (claim_C7 (Location.mk 1 1) (Location.mk 0 0) (Location.mk 0 0)).2.1 rfl⟩

/-- C9: the compression ratio is simplified count / original count, and 0 when
the original count is 0, both in `TripDocument::new` and in
`calculate_route_stats`; 5 original points and 2 simplified points give
exactly 0.4. -/
theorem claim_C9 (d r : String) (route : List Location) (ts : Int) (oc : Nat)
    (original simplified : List Location) :
    (0 < oc → TripDocument.compression_ratio (TripDocument.new d r route ts oc)
      = (route.length : ℝ) / (oc : ℝ)) ∧
    (oc = 0 → TripDocument.compression_ratio (TripDocument.new d r route ts oc) = 0) ∧
    (original ≠ [] → RouteStats.compression_ratio (calculate_route_stats original simplified)
      = (simplified.length : ℝ) / (original.length : ℝ)) ∧
    (original = [] → RouteStats.compression_ratio (calculate_route_stats original simplified)
      = 0) ∧
    (route.length = 2 →
      TripDocument.compression_ratio (TripDocument.new d r route ts 5) = 0.4) ∧
    (original.length = 5 → simplified.length = 2 →
      RouteStats.compression_ratio (calculate_route_stats original simplified) = 0.4) := by
  refine ⟨?_, ?_, ?_, ?_, ?_, ?_⟩
  · intro h
    unfold TripDocument.new TripDocument.compression_ratio
    rw [if_pos h]
  · intro h
    unfold TripDocument.new TripDocument.compression_ratio
    rw [if_neg (by omega)]
  · intro h
    unfold calculate_route_stats RouteStats.compression_ratio
    rw [if_neg (by simp [List.isEmpty_eq_false.mpr h])]
  · intro h
    subst h
    unfold calculate_route_stats RouteStats.compression_ratio
    rw [if_pos List.isEmpty_nil]
  · intro h
    unfold TripDocument.new TripDocument.compression_ratio
    rw [if_pos (by omega : 0 < (5 : Nat)), h]
    norm_num
  · intro ho hs
    have hne : original ≠ [] := by
      intro he
      rw [he] at ho
      simp at ho
    unfold calculate_route_stats RouteStats.compression_ratio
    rw [if_neg (by simp [List.isEmpty_eq_false.mpr hne]), ho, hs]
    norm_num

/-- Witness for C9 on a 5-point original and 2-point simplified route. -/
theorem claim_C9_witness :
    RouteStats.compression_ratio (calculate_route_stats
      [Location.mk 0 0, Location.mk 0 1, Location.mk 0 2, Location.mk 0 3, Location.mk 0 4]
      [Location.mk 0 0, Location.mk 0 4]) = 0.4 :=
  (claim_C9 "d" "r" [] 0 0
    [Location.mk 0 0, Location.mk 0 1, Location.mk 0 2, Location.mk 0 3, Location.mk 0 4]
    [Location.mk 0 0, Location.mk 0 4]).2.2.2.2.2 rfl rfl

/-- C10: termination structure of `simplify_route_custom`: for every anchor `i`
with `i + 1 < locations.len()`, the chosen `farthest_index` is at least `i + 1`
and below `locations.len()`, the loop measure `len - 1 - i` strictly decreases,
and the loop appends at most `len - 1 - i` further points, so the anchor reaches
the final point in at most `len - 1` iterations from `i = 0`. -/
theorem claim_C10 (tol : ℝ) (locations : List Location) (i : Nat)
    (h : i + 1 < locations.length) :
    i + 1 ≤ farthestIdx tol locations i ∧
    farthestIdx tol locations i < locations.length ∧
    locations.length - 1 - farthestIdx tol locations i < locations.length - 1 - i ∧
    ∀ acc : List Location, (customLoop tol locations i acc).length
      ≤ acc.length + (locations.length - 1 - i) := by
  have hge := farthestIdx_ge tol locations i
  have hlt := farthestIdx_lt tol locations i h
  refine ⟨hge, hlt, by omega, ?_⟩
  intro acc
  obtain ⟨rest, heq, hsub⟩ := customLoop_eq_append_aux tol locations locations.length i acc
    (by omega)
  rw [heq, List.length_append]
  have hr := hsub.length_le
  rw [List.length_drop] at hr
  omega

/-- Witness for C10 at tolerance 1, a three-point route and anchor 0. -/
theorem claim_C10_witness :
    1 ≤ farthestIdx 1 [Location.mk 0 0, Location.mk 1 1, Location.mk 2 2] 0 ∧
    farthestIdx 1 [Location.mk 0 0, Location.mk 1 1, Location.mk 2 2] 0 < 3 :=
  ⟨(claim_C10 1 [Location.mk 0 0, Location.mk 1 1, Location.mk 2 2] 0 (by simp)).1,
    (claim_C10 1 [Location.mk 0 0, Location.mk 1 1, Location.mk 2 2] 0 (by simp)).2.1⟩

/-- Exhaustive case analysis of the FINISHED arm of `process_message`:
retrieval failure, empty accumulation, parse failure, insert failure,
delete failure, or full success. -/
theorem handle_finished_cases (env : Env) (tol : ℝ) (msg : BusMessage) :
    (∃ e, env.lrangeResult = .error e ∧
      handle_finished env tol msg = (.error e, [.lrange (deriveKey msg)])) ∨
    (env.lrangeResult = .ok [] ∧
      handle_finished env tol msg = (.ok (), [.lrange (deriveKey msg)])) ∨
    (∃ pts e, env.lrangeResult = .ok pts ∧ pts ≠ [] ∧
      parse_points env.parseLoc pts = .error e ∧
      handle_finished env tol msg = (.error e, [.lrange (deriveKey msg)])) ∨
    (∃ pts locs simplified e, env.lrangeResult = .ok pts ∧ pts ≠ [] ∧
      parse_points env.parseLoc pts = .ok locs ∧
      simplify_route tol locs = .ok simplified ∧
      env.insertOutcome = .error e ∧
      handle_finished env tol msg = (.error e, [.lrange (deriveKey msg),
        .insertOne (mkTripDoc msg locs simplified)])) ∨
    (∃ pts locs simplified e, env.lrangeResult = .ok pts ∧ pts ≠ [] ∧
      parse_points env.parseLoc pts = .ok locs ∧
      simplify_route tol locs = .ok simplified ∧
      env.insertOutcome = .ok () ∧ env.delOutcome = .error e ∧
      handle_finished env tol msg = (.error e, [.lrange (deriveKey msg),
        .insertOne (mkTripDoc msg locs simplified), .del (deriveKey msg)])) ∨
    (∃ pts locs simplified, env.lrangeResult = .ok pts ∧ pts ≠ [] ∧
      parse_points env.parseLoc pts = .ok locs ∧
      simplify_route tol locs = .ok simplified ∧
      env.insertOutcome = .ok () ∧ env.delOutcome = .ok () ∧
      handle_finished env tol msg = (.ok (), [.lrange (deriveKey msg),
        .insertOne (mkTripDoc msg locs simplified), .del (deriveKey msg)])) := by
  unfold handle_finished
  cases hlr : env.lrangeResult with
  | error e => exact Or.inl ⟨e, rfl, rfl⟩
  | ok pts =>
    cases pts with
    | nil => exact Or.inr (Or.inl ⟨rfl, rfl⟩)
    | cons s rest =>
      dsimp only
      simp only [List.isEmpty_cons, Bool.false_eq_true, if_false]
      cases hp : parse_points env.parseLoc (s :: rest) with
      | error e =>
        dsimp only
        exact Or.inr (Or.inr (Or.inl ⟨s :: rest, e, rfl, List.cons_ne_nil s rest, hp, rfl⟩))
      | ok locs =>
        dsimp only
        obtain ⟨simplified, hs⟩ := simplify_route_ok tol locs
        rw [hs]
        dsimp only
        cases hins : env.insertOutcome with
        | error e =>
          dsimp only
          exact Or.inr (Or.inr (Or.inr (Or.inl
            ⟨s :: rest, locs, simplified, e, rfl, List.cons_ne_nil s rest, hp, hs, rfl, rfl⟩)))
        | ok u =>
          dsimp only
          cases hdel : env.delOutcome with
          | error e =>
            dsimp only
            exact Or.inr (Or.inr (Or.inr (Or.inr (Or.inl
              ⟨s :: rest, locs, simplified, e, rfl, List.cons_ne_nil s rest, hp, hs,
                rfl, rfl, rfl⟩))))
          | ok v =>
            dsimp only
            exact Or.inr (Or.inr (Or.inr (Or.inr (Or.inr
              ⟨s :: rest, locs, simplified, rfl, List.cons_ne_nil s rest, hp, hs,
                rfl, rfl, rfl⟩))))

/-- C4: on a FINISHED message whose key has a non-empty accumulated point list,
`process_message` issues the Redis delete only after the MongoDB insert
succeeded (in that order in the effect trace); if retrieval, point parsing,
simplification, or the insert fails, the delete is not issued and the message
fails with that error. -/
theorem claim_C4 (env : Env) (tol : ℝ) (msg : BusMessage)
    (hdec : env.decode = .ok msg) (hst : msg.status = .finished)
    (hne : ∀ pts, env.lrangeResult = .ok pts → pts ≠ []) :
    (∀ e, env.lrangeResult = .error e → (process_message env tol).1 = .error e ∧
      Action.del (deriveKey msg) ∉ (process_message env tol).2) ∧
    (∀ e pts, env.lrangeResult = .ok pts → parse_points env.parseLoc pts = .error e →
      (process_message env tol).1 = .error e ∧
      Action.del (deriveKey msg) ∉ (process_message env tol).2) ∧
    (∀ e locs, simplify_route tol locs ≠ .error e) ∧
    (∀ e, env.insertOutcome = .error e → (process_message env tol).1 ≠ .ok () ∧
      Action.del (deriveKey msg) ∉ (process_message env tol).2) ∧
    (Action.del (deriveKey msg) ∈ (process_message env tol).2 →
      env.insertOutcome = .ok () ∧
      ∃ doc, (process_message env tol).2 = [Action.lrange (deriveKey msg),
        Action.insertOne doc, Action.del (deriveKey msg)]) := by
  rw [process_message_eq_finished env tol msg hdec hst]
  have hcases := handle_finished_cases env tol msg
  refine ⟨?_, ?_, ?_, ?_, ?_⟩
  · intro e he
    rcases hcases with ⟨e', h1, h2⟩ | ⟨h1, h2⟩ | ⟨pts, e', h1, hp, h3, h2⟩ |
      ⟨pts, locs, s, e', h1, hp, h3, h4, h5, h2⟩ |
      ⟨pts, locs, s, e', h1, hp, h3, h4, h5, h6, h2⟩ |
      ⟨pts, locs, s, h1, hp, h3, h4, h5, h6, h2⟩ <;> rw [he] at h1
    · cases h1
      rw [h2]
      simp
    all_goals cases h1
  · intro e pts hpts hparse
    rcases hcases with ⟨e', h1, h2⟩ | ⟨h1, h2⟩ | ⟨pts', e', h1, hp, h3, h2⟩ |
      ⟨pts', locs, s, e', h1, hp, h3, h4, h5, h2⟩ |
      ⟨pts', locs, s, e', h1, hp, h3, h4, h5, h6, h2⟩ |
      ⟨pts', locs, s, h1, hp, h3, h4, h5, h6, h2⟩ <;> rw [hpts] at h1
    · cases h1
    · cases h1
      simp [parse_points] at hparse
    · cases h1
      rw [hparse] at h3
      cases h3
      rw [h2]
      simp
    · cases h1
      rw [hparse] at h3
      cases h3
    · cases h1
      rw [hparse] at h3
      cases h3
    · cases h1
      rw [hparse] at h3
      cases h3
  · intro e locs
    obtain ⟨out, hout⟩ := simplify_route_ok tol locs
    rw [hout]
    simp
  · intro e hins
    rcases hcases with ⟨e', h1, h2⟩ | ⟨h1, h2⟩ | ⟨pts', e', h1, hp, h3, h2⟩ |
      ⟨pts', locs, s, e', h1, hp, h3, h4, h5, h2⟩ |
      ⟨pts', locs, s, e', h1, hp, h3, h4, h5, h6, h2⟩ |
      ⟨pts', locs, s, h1, hp, h3, h4, h5, h6, h2⟩
    · rw [h2]
      simp
    · exact absurd h1 (fun h => hne [] h rfl)
    · rw [h2]
      simp
    · rw [h2]
      simp
    · rw [hins] at h5
      cases h5
    · rw [hins] at h5
      cases h5
  · intro hmem
    rcases hcases with ⟨e', h1, h2⟩ | ⟨h1, h2⟩ | ⟨pts', e', h1, hp, h3, h2⟩ |
      ⟨pts', locs, s, e', h1, hp, h3, h4, h5, h2⟩ |
      ⟨pts', locs, s, e', h1, hp, h3, h4, h5, h6, h2⟩ |
      ⟨pts', locs, s, h1, hp, h3, h4, h5, h6, h2⟩
    · rw [h2] at hmem
      simp at hmem
    · rw [h2] at hmem
      simp at hmem
    · rw [h2] at hmem
      simp at hmem
    · rw [h2] at hmem
      simp at hmem
    · exact ⟨h5, mkTripDoc msg locs s, by rw [h2]⟩
    · exact ⟨h5, mkTripDoc msg locs s, by rw [h2]⟩

/-- C5: on a FINISHED message whose key has no accumulated points,
`process_message` succeeds, inserts nothing, and deletes nothing. -/
theorem claim_C5 (env : Env) (tol : ℝ) (msg : BusMessage)
    (hdec : env.decode = .ok msg) (hst : msg.status = .finished)
    (hempty : env.lrangeResult = .ok []) :
    (process_message env tol).1 = .ok () ∧
    (∀ doc, Action.insertOne doc ∉ (process_message env tol).2) ∧
    Action.del (deriveKey msg) ∉ (process_message env tol).2 := by
  rw [process_message_eq_finished env tol msg hdec hst]
  have hcases := handle_finished_cases env tol msg
  rcases hcases with ⟨e', h1, h2⟩ | ⟨h1, h2⟩ | ⟨pts', e', h1, hp, h3, h2⟩ |
    ⟨pts', locs, s, e', h1, hp, h3, h4, h5, h2⟩ |
    ⟨pts', locs, s, e', h1, hp, h3, h4, h5, h6, h2⟩ |
    ⟨pts', locs, s, h1, hp, h3, h4, h5, h6, h2⟩ <;> rw [hempty] at h1
  · cases h1
  · rw [h2]
    simp
  all_goals
    cases h1
    exact absurd rfl hp

/-- A concrete FINISHED message used by the witnesses. -/
noncomputable def msgW : BusMessage :=
  ⟨"d1", ⟨0, 0⟩, 0, "r1", .finished⟩

/-- Environment for the C4 witness: one stored point, failing insert. -/
noncomputable def envC4 : Env :=
  { decode := .ok msgW
    serializeLoc := fun _ => .ok ""
    rpushOutcome := .ok ()
    lrangeResult := .ok ["p"]
    parseLoc := fun _ => .ok ⟨0, 0⟩
    insertOutcome := .error .mongo
    delOutcome := .ok () }

/-- Environment for the C5 witness: no stored points. -/
noncomputable def envC5 : Env :=
  { envC4 with lrangeResult := .ok [], insertOutcome := .ok () }

/-- Witness for C4: with a failing insert the message fails and no delete is issued. -/
theorem claim_C4_witness :
    (process_message envC4 1).1 ≠ .ok () ∧
    Action.del (deriveKey msgW) ∉ (process_message envC4 1).2 :=
  (claim_C4 envC4 1 msgW rfl rfl (by
    intro pts h
    injection h with h2
    rw [← h2]
    simp)).2.2.2.1 .mongo rfl

/-- Witness for C5: an empty accumulation yields success with no insert and no delete. -/
theorem claim_C5_witness :
    (process_message envC5 1).1 = .ok () ∧
    (∀ doc, Action.insertOne doc ∉ (process_message envC5 1).2) ∧
    Action.del (deriveKey msgW) ∉ (process_message envC5 1).2 :=
  claim_C5 envC5 1 msgW rfl rfl rfl
